import Mathlib

/-!
Shallow embedding of the rvscaffold-based project-configuration synthesizer
declared in `scripts/configure.py` of the hookless repository.

The repository itself contains only the declaration side: a `Project` subclass
of `scaffold.Java` overriding identity accessors, `dependencies`,
`javadoc_links` and `documentation_links`, and the final `Project().generate()`
call.  The shared generation engine (`rvscaffold`) is not part of the
repository, so its behavior — shortcut resolution, uniqueness enforcement,
link catalogs, artifact rendering and file reconciliation — is modelled from
the specification.  Each such definition carries a doc comment starting with
`Modelled from the spec:`.
-/

set_option autoImplicit false

namespace Hookless

/-- Error taxonomy of the generation engine (spec §7): Configuration,
Unresolved-Dependency, Version-Conflict, Duplicate-Link, Render,
Merge-Conflict. -/
inductive GenError where
  | configuration
  | unresolvedDependency
  | versionConflict
  | duplicateLink
  | renderFailure
  | mergeConflict
deriving DecidableEq

/-- A dependency declaration: coordinate-without-version (`ga`, the
group:artifact pair), the requested version, and the scope
(`"main"` or `"test"`). -/
structure DepDecl where
  ga : String
  version : String
  scope : String
deriving DecidableEq

/-- A labeled cross-reference link (spec §3 LinkEntry). -/
structure LinkEntry where
  label : String
  url : String
deriving DecidableEq

/-- A rendered artifact: target path plus content (spec §3 RenderedArtifact). -/
structure Artifact where
  path : String
  content : String
deriving DecidableEq

/-- Outcome of reconciling one artifact against the filesystem. -/
inductive RecResult where
  | wrote
  | skipped
  | conflict
deriving DecidableEq

/-- Outcome of a whole generation run. -/
inductive Outcome where
  | ok (results : List RecResult)
  | error (e : GenError)
deriving DecidableEq

/-- Ambient execution environment of a run (current time, run counter):
the sources of run-to-run variability a deterministic renderer must ignore. -/
structure Env where
  timestamp : Nat
  runId : Nat
deriving DecidableEq

/-- A call context for the declaration's accessor methods: the Python methods
receive only `self`; this type stands for everything that could vary between
two calls (call index within the run). -/
structure CallCtx where
  callIndex : Nat

/-- The resolved per-repository declaration (spec §3 ProjectDescriptor). -/
structure Descriptor where
  repository_name : String
  pretty_name : String
  pom_description : String
  inception_year : Nat
  jdk_version : Nat
  is_member_project : Bool
  stagean_annotations : Bool
  complete_javadoc : Bool
  dependencies : List DepDecl
  javadoc_links : List LinkEntry
  documentation_links : List LinkEntry
deriving DecidableEq

/-- The filesystem visible to one run: an association of paths to file
contents; the head entry for a path shadows older ones. -/
abbrev FS := List (String × String)

/-- Read the content stored at path `p`, if any. -/
def FS.read (fs : FS) (p : String) : Option String :=
  (fs.find? (fun e => decide (e.1 = p))).map (fun e => e.2)

/-- Store content `c` at path `p`, replacing any previous entry. -/
def FS.write (fs : FS) (p c : String) : FS :=
  (p, c) :: fs.filter (fun e => decide (e.1 ≠ p))

/-- Split a character list on a separator (used to parse `group:artifact:version`
coordinates). -/
def splitChars (sep : Char) : List Char → List (List Char)
  | [] => [[]]
  | c :: rest =>
    match splitChars sep rest with
    | [] => if c = sep then [[], []] else [[c]]
    | g :: gs => if c = sep then [] :: g :: gs else (c :: g) :: gs

/-- Join string parts with a separator. -/
def joinParts (sep : String) : List String → String
  | [] => ""
  | [s] => s
  | s :: rest => s ++ sep ++ joinParts sep rest

/-- Modelled from the spec: `use(coordinate, scope='main')` of the missing
rvscaffold engine (§4.2) parses an explicit `group:artifact:version`
coordinate into a DependencyDeclaration; the scope defaults to `"main"`
unless the caller passes `"test"`. -/
def use (coordinate : String) (scope : String := "main") : DepDecl :=
  let parts := (splitChars ':' coordinate.toList).map (fun cs => String.mk cs)
  { ga := joinParts ":" parts.dropLast
    version := parts.getLastD ""
    scope := scope }

/-- Modelled from the spec: registry shortcut `use_noexception` of the missing
rvscaffold engine maps to a hardcoded coordinate with a curated version
(representative values; the exact curated versions are not in the repository). -/
def use_noexception : DepDecl := use "com.machinezoo.noexception:noexception:1.7.1"

/-- Modelled from the spec: registry shortcut `use_noexception_slf4j` of the
missing rvscaffold engine. -/
def use_noexception_slf4j : DepDecl := use "com.machinezoo.noexception:noexception-slf4j:1.0.1"

/-- Modelled from the spec: registry shortcut `use_fastutil` of the missing
rvscaffold engine. -/
def use_fastutil : DepDecl := use "it.unimi.dsi:fastutil:8.5.4"

/-- Modelled from the spec: registry shortcut `use_guava` of the missing
rvscaffold engine. -/
def use_guava : DepDecl := use "com.google.guava:guava:30.1.1-jre"

/-- Modelled from the spec: registry shortcut `use_junit` of the missing
rvscaffold engine (test scope). -/
def use_junit : DepDecl := use "org.junit.jupiter:junit-jupiter:5.7.1" "test"

/-- Modelled from the spec: registry shortcut `use_hamcrest` of the missing
rvscaffold engine (test scope). -/
def use_hamcrest : DepDecl := use "org.hamcrest:hamcrest:2.2" "test"

/-- Modelled from the spec: registry shortcut `use_slf4j_test` of the missing
rvscaffold engine (test scope). -/
def use_slf4j_test : DepDecl := use "uk.org.lidalia:slf4j-test:1.2.0" "test"

/-- The identity of a declaration for uniqueness purposes:
(coordinate-without-version, scope). -/
def depKey (d : DepDecl) : String × String := (d.ga, d.scope)

/-- Modelled from the spec: adding one declaration to the accumulated set
(§3 uniqueness invariant, §4.2): a declaration sharing
(coordinate-without-version, scope) with an accumulated one overrides it when
the versions agree — since all fields then agree, the list is unchanged — and
signals Version-Conflict when the versions differ; a fresh key is appended,
preserving declaration order. -/
def addDep (acc : List DepDecl) (d : DepDecl) : Except GenError (List DepDecl) :=
  match acc.find? (fun e => decide (depKey e = depKey d)) with
  | some e => if e.version = d.version then .ok acc else .error .versionConflict
  | none => .ok (acc ++ [d])

/-- Left fold of `addDep` over the declared sequence. -/
def resolveDepsAux (acc : List DepDecl) : List DepDecl → Except GenError (List DepDecl)
  | [] => .ok acc
  | d :: rest =>
    match addDep acc d with
    | .ok acc₂ => resolveDepsAux acc₂ rest
    | .error e => .error e

/-- Modelled from the spec: the Dependency Registry resolution pass of the
missing rvscaffold engine — process the declared sequence in order,
enforcing the uniqueness invariant. -/
def resolveDeps (ds : List DepDecl) : Except GenError (List DepDecl) :=
  resolveDepsAux [] ds

/-- Modelled from the spec: adding one entry to a link catalog (§4.3):
a duplicate label signals Duplicate-Link; otherwise the entry is appended,
preserving insertion order. -/
def addLink (acc : List LinkEntry) (l : LinkEntry) : Except GenError (List LinkEntry) :=
  if acc.any (fun e => decide (e.label = l.label)) then .error .duplicateLink
  else .ok (acc ++ [l])

/-- Left fold of `addLink` over the declared sequence. -/
def buildCatalogAux (acc : List LinkEntry) : List LinkEntry → Except GenError (List LinkEntry)
  | [] => .ok acc
  | l :: rest =>
    match addLink acc l with
    | .ok acc₂ => buildCatalogAux acc₂ rest
    | .error e => .error e

/-- Modelled from the spec: building one link catalog of the missing
rvscaffold engine, rejecting duplicate labels. -/
def buildCatalog (ls : List LinkEntry) : Except GenError (List LinkEntry) :=
  buildCatalogAux [] ls

/-- Whether `pat` occurs as a contiguous sublist of the second argument. -/
def hasSub (pat : List Char) : List Char → Bool
  | [] => pat.isEmpty
  | c :: rest => pat.isPrefixOf (c :: rest) || hasSub pat rest

/-- Whether `pat` occurs as a substring of `s`. -/
def hasSubStr (pat s : String) : Bool :=
  hasSub pat.toList s.toList

/-- Modelled from the spec: the marker delimiting a manually edited region
inside a generated file.  The source shows no concrete convention (§9 open
question), so it is represented as a fixed marker string. -/
def manualMarker : String := "MANUAL EDITS"

/-- Whether a file content contains a marked manual region. -/
def hasMarker (content : String) : Bool :=
  hasSubStr manualMarker content

/-- Modelled from the spec: the File Reconciler of the missing rvscaffold
engine (§4.5) — read existing content if the path exists; if it is
byte-identical to the rendered content, perform no write; if it contains a
marked manual region not mirrored in the rendered content, signal a conflict
and leave the file untouched; otherwise write the rendered content. -/
def reconcile (a : Artifact) (fs : FS) : FS × RecResult :=
  match fs.read a.path with
  | none => (fs.write a.path a.content, .wrote)
  | some existing =>
    if existing = a.content then (fs, .skipped)
    else if hasMarker existing && !hasMarker a.content then (fs, .conflict)
    else (fs.write a.path a.content, .wrote)

/-- Modelled from the spec: reconcile each rendered artifact in turn,
aborting at the first Merge-Conflict (already-written files keep their
last-good state, spec §7). -/
def reconcileAll : List Artifact → FS → FS × List RecResult
  | [], fs => (fs, [])
  | a :: rest, fs =>
    let step := reconcile a fs
    match step.2 with
    | .conflict => (step.1, [.conflict])
    | r =>
      let next := reconcileAll rest step.1
      (next.1, r :: next.2)

/-- One line of the dependency manifest for one resolved declaration. -/
def fmtDep (d : DepDecl) : String :=
  d.ga ++ ":" ++ d.version ++ ":" ++ d.scope

/-- One line of a link index for one catalog entry. -/
def fmtLink (l : LinkEntry) : String :=
  l.label ++ " " ++ l.url

/-- The manifest lines listing the resolved declarations, in order. -/
def manifestDepLines (deps : List DepDecl) : List String :=
  deps.map fmtDep

/-- Modelled from the spec: the dependency-manifest artifact content (§6):
resolved coordinates in declaration order, each entry carrying its scope,
under a stable header derived from the descriptor identity. -/
def renderManifest (d : Descriptor) (deps : List DepDecl) : String :=
  joinParts "\n" (("project " ++ d.repository_name) ::
    ("jdk " ++ Nat.repr d.jdk_version) :: manifestDepLines deps)

/-- Modelled from the spec: a link-index artifact content (§6). -/
def renderLinks (ls : List LinkEntry) : String :=
  joinParts "\n" (ls.map fmtLink)

/-- Target path of the dependency manifest. -/
def manifestPath : String := "dependency-manifest"

/-- Target path of the javadoc-links index. -/
def javadocIndexPath : String := "javadoc-links"

/-- Target path of the documentation-links index. -/
def docIndexPath : String := "documentation-links"

/-- Modelled from the spec: the Artifact Synthesizer of the missing rvscaffold
engine (§4.4) — renders the three artifacts of a run.  It receives the ambient
environment but must not consult it: output bytes depend only on the
descriptor and the registry/catalog results. -/
def render (d : Descriptor) (deps : List DepDecl) (jl dl : List LinkEntry)
    (_env : Env) : List Artifact :=
  [⟨manifestPath, renderManifest d deps⟩,
   ⟨javadocIndexPath, renderLinks jl⟩,
   ⟨docIndexPath, renderLinks dl⟩]

/-- Modelled from the spec: one full generation run of the missing rvscaffold
engine (`Project().generate()`): fail fast on an empty repository name before
any rendering, resolve dependencies, build both link catalogs, render, then
reconcile every artifact; any error aborts the run with the filesystem in its
state at the abort. -/
def generate (d : Descriptor) (fs : FS) (env : Env) : FS × Outcome :=
  if d.repository_name = "" then (fs, .error .configuration)
  else
    match resolveDeps d.dependencies with
    | .error e => (fs, .error e)
    | .ok deps =>
      match buildCatalog d.javadoc_links with
      | .error e => (fs, .error e)
      | .ok jl =>
        match buildCatalog d.documentation_links with
        | .error e => (fs, .error e)
        | .ok dl =>
          let out := reconcileAll (render d deps jl dl env) fs
          if RecResult.conflict ∈ out.2 then (out.1, .error .mergeConflict)
          else (out.1, .ok out.2)

/-- `Project.repository_name` of `configure.py`: returns the literal
`'hookless'` on every call. -/
def repository_name (_ : CallCtx) : String := "hookless"

/-- `Project.is_member_project` of `configure.py`: returns `True` on every call. -/
def is_member_project (_ : CallCtx) : Bool := true

/-- `Project.pretty_name` of `configure.py`: returns `'Hookless'` on every call. -/
def pretty_name (_ : CallCtx) : String := "Hookless"

/-- `Project.pom_description` of `configure.py`: returns the literal
description on every call. -/
def pom_description (_ : CallCtx) : String := "Reactive programming library."

/-- `Project.inception_year` of `configure.py`: returns `2015` on every call. -/
def inception_year (_ : CallCtx) : Nat := 2015

/-- `Project.jdk_version` of `configure.py`: returns `17` on every call. -/
def jdk_version (_ : CallCtx) : Nat := 17

/-- `Project.stagean_annotations` of `configure.py`: returns `True` on every call. -/
def stagean_annotations (_ : CallCtx) : Bool := true

/-- `Project.complete_javadoc` of `configure.py`: returns `False` on every call. -/
def complete_javadoc (_ : CallCtx) : Bool := false

/-- `Project.dependencies` of `configure.py`: delegate to the base sequence
(`yield from super().dependencies()`, here the parameter `base`), then yield
the repository-specific declarations in source order. -/
def hookless_dependencies (base : List DepDecl) : List DepDecl :=
  base ++
    [use_noexception,
     use_noexception_slf4j,
     use_fastutil,
     use_guava,
     use "io.micrometer:micrometer-core:1.6.4",
     use "io.opentracing:opentracing-util:0.33.0",
     use_junit,
     use_hamcrest,
     use "org.awaitility:awaitility:4.0.3" "test",
     use "org.junit-pioneer:junit-pioneer:0.9.0",
     use_slf4j_test]

/-- `Project.javadoc_links` of `configure.py`: delegate to the base sequence,
then yield exactly one repository-specific URL (the noexception javadocs);
the source deliberately yields no link for OpenTracing. -/
def hookless_javadoc_links (base : List String) : List String :=
  base ++ ["https://noexception.machinezoo.com/javadocs/core/"]

/-- `Project.documentation_links` of `configure.py`: delegate to the base
sequence, then yield the two repository-specific labeled links. -/
def hookless_documentation_links (base : List LinkEntry) : List LinkEntry :=
  base ++
    [⟨"Concepts", "https://hookless.machinezoo.com/concepts"⟩,
     ⟨"Adapters", "https://hookless.machinezoo.com/adapters"⟩]

/-- The spec §8 scenario descriptor: name `"hookless"`, jdk 17, dependencies
`[use('guava')]`, no repository links. -/
def scenarioDescriptor : Descriptor :=
  { repository_name := "hookless", pretty_name := "Hookless",
    pom_description := "Reactive programming library.",
    inception_year := 2015, jdk_version := 17,
    is_member_project := true, stagean_annotations := true,
    complete_javadoc := false,
    dependencies := [use_guava],
    javadoc_links := [], documentation_links := [] }

/-- The filesystem produced by running the scenario descriptor on an empty
filesystem. -/
def scenarioFS : FS :=
  [(docIndexPath, ""),
   (javadocIndexPath, ""),
   (manifestPath,
    "project hookless\njdk 17\ncom.google.guava:guava:30.1.1-jre:main")]

/-- A descriptor declaring the same coordinate in the same scope with two
different versions. -/
def conflictDescriptor : Descriptor :=
  { scenarioDescriptor with
    dependencies := [use "org.example:lib:1.0", use "org.example:lib:2.0"] }

/-- A descriptor whose repository name resolves to the empty string. -/
def emptyNameDescriptor : Descriptor :=
  { scenarioDescriptor with repository_name := "" }

/-!
## Theorems
-/

theorem find?_filter_ne (l : List (String × String)) (p q : String) (h : q ≠ p) :
    (l.filter (fun e => decide (e.1 ≠ p))).find? (fun e => decide (e.1 = q)) =
      l.find? (fun e => decide (e.1 = q)) := by
  induction l with
  | nil => rfl
  | cons e rest ih =>
    rw [List.filter_cons]
    by_cases hp : e.1 = p
    · have hq : ¬ e.1 = q := fun hq => h (hq ▸ hp ▸ rfl)
      rw [if_neg (by simp [hp]), ih, List.find?_cons_of_neg _ (by simp [hq])]
    · rw [if_pos (by simp [hp])]
      by_cases hq : e.1 = q
      · rw [List.find?_cons_of_pos _ (by simp [hq]),
          List.find?_cons_of_pos _ (by simp [hq])]
      · rw [List.find?_cons_of_neg _ (by simp [hq]),
          List.find?_cons_of_neg _ (by simp [hq]), ih]

theorem FS.read_write_self (fs : FS) (p c : String) :
    (fs.write p c).read p = some c := by
  simp [FS.read, FS.write, List.find?_cons]

theorem FS.read_write_other (fs : FS) (p c q : String) (h : q ≠ p) :
    (fs.write p c).read q = fs.read q := by
  unfold FS.read FS.write
  rw [List.find?_cons_of_neg _ (by simp; exact fun hq : p = q => h hq.symm),
    find?_filter_ne fs p q h]

theorem reconcile_skip_of_identical (a : Artifact) (fs : FS)
    (h : fs.read a.path = some a.content) :
    reconcile a fs = (fs, .skipped) := by
  simp [reconcile, h]

theorem reconcile_read_other (a : Artifact) (fs : FS) (p : String)
    (h : p ≠ a.path) :
    ((reconcile a fs).1).read p = fs.read p := by
  unfold reconcile
  cases hfs : fs.read a.path with
  | none => exact FS.read_write_other fs a.path a.content p h
  | some existing =>
    by_cases he : existing = a.content
    · simp [he]
    · by_cases hm : (hasMarker existing && !hasMarker a.content) = true
      · simp [he, hm]
      · simp only [if_neg he, if_neg hm]
        exact FS.read_write_other fs a.path a.content p h

theorem reconcile_read_self (a : Artifact) (fs : FS)
    (h : (reconcile a fs).2 ≠ .conflict) :
    ((reconcile a fs).1).read a.path = some a.content := by
  unfold reconcile at h ⊢
  cases hfs : fs.read a.path with
  | none => exact FS.read_write_self fs a.path a.content
  | some existing =>
    by_cases he : existing = a.content
    · simp [he, hfs]
    · by_cases hm : (hasMarker existing && !hasMarker a.content) = true
      · rw [hfs] at h
        simp [he, hm] at h
      · simp only [if_neg he, if_neg hm]
        exact FS.read_write_self fs a.path a.content

theorem reconcileAll_cons (a : Artifact) (rest : List Artifact) (fs : FS) :
    reconcileAll (a :: rest) fs =
      match (reconcile a fs).2 with
      | .conflict => ((reconcile a fs).1, [.conflict])
      | r =>
        ((reconcileAll rest (reconcile a fs).1).1,
         r :: (reconcileAll rest (reconcile a fs).1).2) := rfl

theorem reconcileAll_cons_of_not_conflict (a : Artifact) (rest : List Artifact)
    (fs : FS) (h : (reconcile a fs).2 ≠ .conflict) :
    reconcileAll (a :: rest) fs =
      ((reconcileAll rest (reconcile a fs).1).1,
       (reconcile a fs).2 :: (reconcileAll rest (reconcile a fs).1).2) := by
  rw [reconcileAll_cons]
  cases hr : (reconcile a fs).2 with
  | conflict => exact absurd hr h
  | wrote => rfl
  | skipped => rfl

theorem reconcileAll_read_other (as : List Artifact) (fs : FS) (p : String)
    (h : ∀ a ∈ as, p ≠ a.path) :
    ((reconcileAll as fs).1).read p = fs.read p := by
  induction as generalizing fs with
  | nil => rfl
  | cons a rest ih =>
    have h1 := reconcile_read_other a fs p (h a (by simp))
    rw [reconcileAll_cons]
    cases hr : (reconcile a fs).2 with
    | conflict => exact h1
    | wrote =>
      show ((reconcileAll rest (reconcile a fs).1).1).read p = fs.read p
      rw [ih (reconcile a fs).1 (fun b hb => h b (by simp [hb]))]
      exact h1
    | skipped =>
      show ((reconcileAll rest (reconcile a fs).1).1).read p = fs.read p
      rw [ih (reconcile a fs).1 (fun b hb => h b (by simp [hb]))]
      exact h1

theorem reconcileAll_post (as : List Artifact) (fs : FS)
    (hnd : (as.map (fun a => a.path)).Nodup)
    (hc : RecResult.conflict ∉ (reconcileAll as fs).2) :
    ∀ a ∈ as, ((reconcileAll as fs).1).read a.path = some a.content := by
  induction as generalizing fs with
  | nil => simp
  | cons a rest ih =>
    by_cases hcf : (reconcile a fs).2 = .conflict
    · exfalso
      apply hc
      rw [reconcileAll_cons, hcf]
      simp
    · rw [reconcileAll_cons_of_not_conflict a rest fs hcf] at hc ⊢
      simp only [List.mem_cons] at hc
      push_neg at hc
      intro b hb
      rcases List.mem_cons.mp hb with hb | hb

      · subst hb
        have hpaths : ∀ x ∈ rest, b.path ≠ x.path := by
          intro x hx hcontra
          have : b.path ∈ rest.map (fun a => a.path) :=
            List.mem_map.mpr ⟨x, hx, hcontra.symm⟩
          exact (List.nodup_cons.mp hnd).1 this
        simp only []
        rw [reconcileAll_read_other rest (reconcile b fs).1 b.path hpaths]
        exact reconcile_read_self b fs hcf
      · simp only []
        exact ih (reconcile a fs).1 (List.nodup_cons.mp hnd).2 hc.2 b hb

theorem reconcileAll_skip (as : List Artifact) (fs : FS)
    (h : ∀ a ∈ as, fs.read a.path = some a.content) :
    reconcileAll as fs = (fs, as.map (fun _ => RecResult.skipped)) := by
  induction as with
  | nil => rfl
  | cons a rest ih =>
    have hstep : reconcile a fs = (fs, .skipped) :=
      reconcile_skip_of_identical a fs (h a (by simp))
    rw [reconcileAll_cons, hstep]
    show ((reconcileAll rest fs).1, RecResult.skipped :: (reconcileAll rest fs).2) = _
    rw [ih (fun b hb => h b (by simp [hb]))]
    simp

/-- C3: rendering is deterministic — for a fixed descriptor and fixed
registry/catalog results, two executions under different ambient environments
(timestamps, run counters) produce byte-identical artifacts, and the whole
generation run is likewise environment-independent. -/
theorem rendering_deterministic (d : Descriptor) (deps : List DepDecl)
    (jl dl : List LinkEntry) (fs : FS) (env₁ env₂ : Env) :
    render d deps jl dl env₁ = render d deps jl dl env₂ ∧
    generate d fs env₁ = generate d fs env₂ :=
  ⟨rfl, rfl⟩

/-- C5: adding a LinkEntry whose label equals the label of an entry already in
the catalog signals Duplicate-Link — the entry is neither accepted, replaced,
nor ignored. -/
theorem duplicate_link_rejected (acc : List LinkEntry) (l : LinkEntry)
    (h : acc.any (fun e => decide (e.label = l.label)) = true) :
    addLink acc l = .error .duplicateLink := by
  simp [addLink, h]

/-- Witness for `duplicate_link_rejected` at a concrete catalog. -/
theorem duplicate_link_rejected_witness :
    (([⟨"Concepts", "u"⟩] : List LinkEntry).any
        (fun e => decide (e.label = LinkEntry.label ⟨"Concepts", "v"⟩))) = true ∧
    addLink [⟨"Concepts", "u"⟩] ⟨"Concepts", "v"⟩ = .error .duplicateLink :=
  ⟨by decide, duplicate_link_rejected [⟨"Concepts", "u"⟩] ⟨"Concepts", "v"⟩ (by decide)⟩

/-- C6: when the existing target file contains a marked manual region that is
not mirrored in the rendered content, reconciliation signals Merge-Conflict
and the filesystem — in particular the target file's bytes — is exactly what
it was before. -/
theorem merge_conflict_preserves_file (a : Artifact) (fs : FS) (existing : String)
    (hr : fs.read a.path = some existing)
    (hne : existing ≠ a.content)
    (hm : hasMarker existing = true) (hn : hasMarker a.content = false) :
    reconcile a fs = (fs, .conflict) := by
  simp [reconcile, hr, hne, hm, hn]

/-- Witness for `merge_conflict_preserves_file` at a concrete file. -/
theorem merge_conflict_preserves_file_witness :
    FS.read [("config", "x MANUAL EDITS y")] (Artifact.path ⟨"config", "fresh"⟩) =
      some "x MANUAL EDITS y" ∧
    ("x MANUAL EDITS y" ≠ Artifact.content ⟨"config", "fresh"⟩) ∧
    hasMarker "x MANUAL EDITS y" = true ∧
    hasMarker (Artifact.content ⟨"config", "fresh"⟩) = false ∧
    reconcile ⟨"config", "fresh"⟩ [("config", "x MANUAL EDITS y")] =
      ([("config", "x MANUAL EDITS y")], .conflict) :=
  ⟨rfl, by decide, rfl, rfl,
   merge_conflict_preserves_file ⟨"config", "fresh"⟩ [("config", "x MANUAL EDITS y")]
     "x MANUAL EDITS y" rfl (by decide) rfl rfl⟩

/-- C7: a descriptor whose repository name resolves to the empty value makes
generation fail with a Configuration error before any rendering, leaving the
filesystem untouched (no output files are written). -/
theorem empty_name_fails_fast (d : Descriptor) (fs : FS) (env : Env)
    (h : d.repository_name = "") :
    generate d fs env = (fs, .error .configuration) := by
  simp [generate, h]

/-- Witness for `empty_name_fails_fast` at a concrete descriptor. -/
theorem empty_name_fails_fast_witness :
    emptyNameDescriptor.repository_name = "" ∧
    generate emptyNameDescriptor [] ⟨0, 0⟩ = ([], .error .configuration) :=
  ⟨rfl, empty_name_fails_fast emptyNameDescriptor [] ⟨0, 0⟩ rfl⟩

/-- C8: the guava shortcut resolves to a single manifest entry with scope
`"main"`, and redeclaring `use('guava')` with an identical version still
yields exactly one entry — redeclaration overrides, it does not duplicate. -/
theorem guava_single_entry :
    resolveDeps [use_guava] = .ok [use_guava] ∧
    resolveDeps [use_guava, use_guava] = .ok [use_guava] ∧
    use_guava.ga = "com.google.guava:guava" ∧
    use_guava.scope = "main" ∧
    ([use_guava].countP
      (fun x => decide (x.ga = "com.google.guava:guava" ∧ x.scope = "main"))) = 1 ∧
    (manifestDepLines [use_guava]).length = 1 :=
  ⟨rfl, rfl, rfl, rfl, rfl, rfl⟩

/-- C9: every identity accessor of the hookless declaration is a constant
function of its call context: it returns the same fixed value on every call. -/
theorem identity_accessors_constant (c₁ c₂ : CallCtx) :
    repository_name c₁ = "hookless" ∧ repository_name c₁ = repository_name c₂ ∧
    is_member_project c₁ = true ∧ is_member_project c₁ = is_member_project c₂ ∧
    pretty_name c₁ = "Hookless" ∧ pretty_name c₁ = pretty_name c₂ ∧
    pom_description c₁ = "Reactive programming library." ∧
    pom_description c₁ = pom_description c₂ ∧
    inception_year c₁ = 2015 ∧ inception_year c₁ = inception_year c₂ ∧
    jdk_version c₁ = 17 ∧ jdk_version c₁ = jdk_version c₂ ∧
    stagean_annotations c₁ = true ∧
    stagean_annotations c₁ = stagean_annotations c₂ ∧
    complete_javadoc c₁ = false ∧ complete_javadoc c₁ = complete_javadoc c₂ :=
  ⟨rfl, rfl, rfl, rfl, rfl, rfl, rfl, rfl, rfl, rfl, rfl, rfl, rfl, rfl, rfl, rfl⟩

/-- C10: the hookless javadoc catalog is the base links followed by exactly
one repository-specific URL (the noexception javadocs); provided the base
links mention no opentracing URL, the whole catalog mentions none — even
though the io.opentracing dependency is declared. -/
theorem javadoc_links_independent (base : List String) (baseDeps : List DepDecl)
    (h : base.all (fun u => !hasSubStr "opentracing" u) = true) :
    hookless_javadoc_links base =
      base ++ ["https://noexception.machinezoo.com/javadocs/core/"] ∧
    (hookless_javadoc_links base).all (fun u => !hasSubStr "opentracing" u) = true ∧
    use "io.opentracing:opentracing-util:0.33.0" ∈ hookless_dependencies baseDeps := by
  refine ⟨rfl, ?_, ?_⟩
  · rw [hookless_javadoc_links, List.all_append, h]
    rfl
  · simp [hookless_dependencies]

/-- Witness for `javadoc_links_independent` at a concrete base catalog. -/
theorem javadoc_links_independent_witness :
    (["https://docs.oracle.com/en/java/javase/17/docs/api/"].all
      (fun u => !hasSubStr "opentracing" u)) = true ∧
    (hookless_javadoc_links ["https://docs.oracle.com/en/java/javase/17/docs/api/"] =
      ["https://docs.oracle.com/en/java/javase/17/docs/api/"] ++
        ["https://noexception.machinezoo.com/javadocs/core/"] ∧
     (hookless_javadoc_links
        ["https://docs.oracle.com/en/java/javase/17/docs/api/"]).all
        (fun u => !hasSubStr "opentracing" u) = true ∧
     use "io.opentracing:opentracing-util:0.33.0" ∈ hookless_dependencies []) :=
  ⟨by decide,
   javadoc_links_independent ["https://docs.oracle.com/en/java/javase/17/docs/api/"]
     [] (by decide)⟩

theorem resolveDepsAux_cons (acc : List DepDecl) (d : DepDecl)
    (rest : List DepDecl) :
    resolveDepsAux acc (d :: rest) =
      match addDep acc d with
      | .ok acc₂ => resolveDepsAux acc₂ rest
      | .error e => .error e := rfl

theorem resolveDepsAux_disjoint (ds : List DepDecl) :
    ∀ acc : List DepDecl,
      (∀ d ∈ ds, ∀ e ∈ acc, depKey e ≠ depKey d) → (ds.map depKey).Nodup →
      resolveDepsAux acc ds = .ok (acc ++ ds) := by
  induction ds with
  | nil => intro acc _ _; simp [resolveDepsAux]
  | cons d rest ih =>
    intro acc hdis hnd
    rw [List.map_cons, List.nodup_cons] at hnd
    have hfind : acc.find? (fun e => decide (depKey e = depKey d)) = none := by
      rw [List.find?_eq_none]
      intro e he hc
      exact hdis d (by simp) e he (by simpa using hc)
    rw [resolveDepsAux_cons]
    simp only [addDep, hfind]
    rw [ih (acc ++ [d]) ?_ hnd.2]
    · simp
    · intro d₂ hd₂ e he
      rcases List.mem_append.mp he with he | he
      · exact hdis d₂ (by simp [hd₂]) e he
      · have he₂ : e = d := by simpa using he
        subst he₂
        intro hk
        apply hnd.1
        rw [hk]
        exact List.mem_map.mpr ⟨d₂, hd₂, rfl⟩

/-- C1 counterexample: a descriptor whose repository-specific additions repeat
a base declaration (same coordinate, scope and version).  The uniqueness
invariant makes the redeclaration override rather than duplicate, so the
manifest lists three entries, not the four of the declared sequence
`[x, y, x, b]`. -/
theorem dep_order_duplicate_counterexample :
    resolveDeps [use "org.example:x:1.0", use "org.example:y:1.0",
        use "org.example:x:1.0", use "org.example:b:1.0"] =
      .ok [use "org.example:x:1.0", use "org.example:y:1.0",
        use "org.example:b:1.0"] ∧
    manifestDepLines [use "org.example:x:1.0", use "org.example:y:1.0",
        use "org.example:b:1.0"] ≠
      [fmtDep (use "org.example:x:1.0"), fmtDep (use "org.example:y:1.0"),
       fmtDep (use "org.example:x:1.0"), fmtDep (use "org.example:b:1.0")] :=
  ⟨rfl, by decide⟩

/-- C1 (amended): for a descriptor adding declarations `[a, b]` after a base
sequence `[x, y]`, provided the four declarations carry pairwise-distinct
(coordinate-without-version, scope) keys, the rendered manifest lists exactly
`[x, y, a, b]` in that order: base entries first, then additions, relative
order preserved within each segment. -/
theorem dep_order_preserved (x y a b : DepDecl)
    (h : ([x, y, a, b].map depKey).Nodup) :
    resolveDeps [x, y, a, b] = .ok [x, y, a, b] ∧
    manifestDepLines [x, y, a, b] =
      [fmtDep x, fmtDep y, fmtDep a, fmtDep b] := by
  refine ⟨?_, rfl⟩
  have h₂ := resolveDepsAux_disjoint [x, y, a, b] [] (by simp) h
  simpa [resolveDeps] using h₂

/-- Witness for `dep_order_preserved` at four concrete declarations. -/
theorem dep_order_preserved_witness :
    (([use "org.example:x:1.0", use "org.example:y:1.0",
        use "org.example:a:1.0", use "org.example:b:1.0"].map depKey).Nodup) ∧
    (resolveDeps [use "org.example:x:1.0", use "org.example:y:1.0",
        use "org.example:a:1.0", use "org.example:b:1.0"] =
      .ok [use "org.example:x:1.0", use "org.example:y:1.0",
        use "org.example:a:1.0", use "org.example:b:1.0"] ∧
     manifestDepLines [use "org.example:x:1.0", use "org.example:y:1.0",
        use "org.example:a:1.0", use "org.example:b:1.0"] =
      [fmtDep (use "org.example:x:1.0"), fmtDep (use "org.example:y:1.0"),
       fmtDep (use "org.example:a:1.0"), fmtDep (use "org.example:b:1.0")]) :=
  ⟨by decide,
   dep_order_preserved (use "org.example:x:1.0") (use "org.example:y:1.0")
     (use "org.example:a:1.0") (use "org.example:b:1.0") (by decide)⟩

theorem addDep_error_eq {acc : List DepDecl} {d : DepDecl} {e : GenError}
    (h : addDep acc d = .error e) : e = .versionConflict := by
  unfold addDep at h
  cases hf : acc.find? (fun x => decide (depKey x = depKey d)) with
  | none => rw [hf] at h; simp at h
  | some e₂ =>
    rw [hf] at h
    replace h : (if e₂.version = d.version then Except.ok acc
        else Except.error GenError.versionConflict) = Except.error e := h
    by_cases hv : e₂.version = d.version
    · rw [if_pos hv] at h; simp at h
    · rw [if_neg hv] at h
      injection h with h₃
      exact h₃.symm

theorem addDep_ok_cases {acc : List DepDecl} {d : DepDecl} {acc₂ : List DepDecl}
    (h : addDep acc d = .ok acc₂) : acc₂ = acc ∨ acc₂ = acc ++ [d] := by
  unfold addDep at h
  cases hf : acc.find? (fun x => decide (depKey x = depKey d)) with
  | none =>
    rw [hf] at h
    have h₂ : Except.ok (ε := GenError) (acc ++ [d]) = Except.ok acc₂ := h
    injection h₂ with h₃
    exact Or.inr h₃.symm
  | some e₂ =>
    rw [hf] at h
    replace h : (if e₂.version = d.version then Except.ok acc
        else Except.error GenError.versionConflict) = Except.ok acc₂ := h
    by_cases hv : e₂.version = d.version
    · rw [if_pos hv] at h
      injection h with h₃
      exact Or.inl h₃.symm
    · rw [if_neg hv] at h; simp at h

theorem addDep_ok_sub {acc : List DepDecl} {d : DepDecl} {acc₂ : List DepDecl}
    (h : addDep acc d = .ok acc₂) : ∀ e ∈ acc, e ∈ acc₂ := by
  rcases addDep_ok_cases h with h₂ | h₂ <;> subst h₂
  · exact fun e he => he
  · exact fun e he => List.mem_append_left _ he

theorem addDep_ok_keys {acc : List DepDecl} {d : DepDecl} {acc₂ : List DepDecl}
    (h : addDep acc d = .ok acc₂) (hnd : (acc.map depKey).Nodup) :
    (acc₂.map depKey).Nodup := by
  rcases addDep_ok_cases h with h₂ | h₂ <;> subst h₂
  · exact hnd
  · rw [List.map_append]
    refine List.Nodup.append hnd (by simp) ?_
    intro k hk hk₂
    have hk₃ : k = depKey d := by simpa using hk₂
    unfold addDep at h
    cases hf : acc.find? (fun x => decide (depKey x = depKey d)) with
    | some e₂ =>
      rw [hf] at h
      replace h : (if e₂.version = d.version then Except.ok acc
          else Except.error GenError.versionConflict) = Except.ok (acc ++ [d]) := h
      by_cases hv : e₂.version = d.version
      · rw [if_pos hv] at h
        injection h with h₄
        simpa using congrArg List.length h₄
      · rw [if_neg hv] at h; simp at h
    | none =>
      rw [List.find?_eq_none] at hf
      rcases List.mem_map.mp hk with ⟨e, he, hke⟩
      exact hf e he (decide_eq_true (hke.trans hk₃))

theorem addDep_ok_key_mem {acc : List DepDecl} {d : DepDecl}
    {acc₂ : List DepDecl} (h : addDep acc d = .ok acc₂) :
    ∃ e ∈ acc₂, depKey e = depKey d ∧ e.version = d.version := by
  unfold addDep at h
  cases hf : acc.find? (fun x => decide (depKey x = depKey d)) with
  | some e₂ =>
    rw [hf] at h
    replace h : (if e₂.version = d.version then Except.ok acc
        else Except.error GenError.versionConflict) = Except.ok acc₂ := h
    by_cases hv : e₂.version = d.version
    · rw [if_pos hv] at h
      injection h with h₃
      refine ⟨e₂, ?_, ?_, hv⟩
      · rw [← h₃]; exact List.mem_of_find?_eq_some hf
      · simpa using List.find?_some hf
    · rw [if_neg hv] at h; simp at h
  | none =>
    rw [hf] at h
    have h₂ : Except.ok (ε := GenError) (acc ++ [d]) = Except.ok acc₂ := h
    injection h₂ with h₃
    exact ⟨d, by rw [← h₃]; simp, rfl, rfl⟩

theorem addDep_conflict {acc : List DepDecl} {d : DepDecl}
    (hnd : (acc.map depKey).Nodup) {e : DepDecl} (he : e ∈ acc)
    (hk : depKey e = depKey d) (hv : e.version ≠ d.version) :
    addDep acc d = .error .versionConflict := by
  unfold addDep
  cases hf : acc.find? (fun x => decide (depKey x = depKey d)) with
  | none =>
    rw [List.find?_eq_none] at hf
    exact absurd (decide_eq_true hk) (hf e he)
  | some e₂ =>
    have he₂ : e₂ ∈ acc := List.mem_of_find?_eq_some hf
    have hk₂ : depKey e₂ = depKey d := by simpa using List.find?_some hf
    have heq : e₂ = e :=
      List.inj_on_of_nodup_map hnd he₂ he (hk₂.trans hk.symm)
    subst heq
    simp [hv]

theorem resolveDepsAux_error_eq {ds : List DepDecl} :
    ∀ {acc : List DepDecl} {e : GenError},
      resolveDepsAux acc ds = .error e → e = .versionConflict := by
  induction ds with
  | nil =>
    intro acc e h
    simp [resolveDepsAux] at h
  | cons d rest ih =>
    intro acc e h
    rw [resolveDepsAux_cons] at h
    cases ha : addDep acc d with
    | ok acc₂ => rw [ha] at h; exact ih h
    | error e₂ =>
      rw [ha] at h
      have h₂ : Except.error (ε := GenError) (α := List DepDecl) e₂ =
        Except.error e := h
      injection h₂ with h₃
      rw [← h₃]
      exact addDep_error_eq ha

theorem resolveDepsAux_nodup {ds : List DepDecl} :
    ∀ {acc acc₂ : List DepDecl}, resolveDepsAux acc ds = .ok acc₂ →
      (acc.map depKey).Nodup → (acc₂.map depKey).Nodup := by
  induction ds with
  | nil =>
    intro acc acc₂ h hnd
    have h₂ : Except.ok (ε := GenError) acc = Except.ok acc₂ := h
    injection h₂ with h₃
    rw [← h₃]
    exact hnd
  | cons d rest ih =>
    intro acc acc₂ h hnd
    rw [resolveDepsAux_cons] at h
    cases ha : addDep acc d with
    | error e =>
      rw [ha] at h
      exact absurd (h : Except.error e = .ok acc₂) (by simp)
    | ok accm =>
      rw [ha] at h
      exact ih h (addDep_ok_keys ha hnd)

theorem resolveDepsAux_append (acc : List DepDecl) (l₁ l₂ : List DepDecl) :
    resolveDepsAux acc (l₁ ++ l₂) =
      match resolveDepsAux acc l₁ with
      | .ok acc₂ => resolveDepsAux acc₂ l₂
      | .error e => .error e := by
  induction l₁ generalizing acc with
  | nil => simp [resolveDepsAux]
  | cons d rest ih =>
    rw [List.cons_append, resolveDepsAux_cons, resolveDepsAux_cons]
    cases ha : addDep acc d with
    | ok acc₂ => exact ih acc₂
    | error e => rfl

theorem resolveDepsAux_conflict (ds₂ ds₃ : List DepDecl) (d₂ : DepDecl) :
    ∀ acc : List DepDecl, (acc.map depKey).Nodup →
      ∀ e ∈ acc, depKey e = depKey d₂ → e.version ≠ d₂.version →
      resolveDepsAux acc (ds₂ ++ d₂ :: ds₃) = .error .versionConflict := by
  induction ds₂ with
  | nil =>
    intro acc hnd e he hk hv
    rw [List.nil_append, resolveDepsAux_cons, addDep_conflict hnd he hk hv]
  | cons d rest ih =>
    intro acc hnd e he hk hv
    rw [List.cons_append, resolveDepsAux_cons]
    cases ha : addDep acc d with
    | error e₂ =>
      show Except.error e₂ = Except.error GenError.versionConflict
      rw [addDep_error_eq ha]
    | ok acc₂ =>
      exact ih acc₂ (addDep_ok_keys ha hnd) e (addDep_ok_sub ha e he) hk hv

/-- C4: two declarations with the same coordinate-without-version and the same
scope but differing versions make dependency resolution — and with it the
whole generation run — fail with Version-Conflict; the conflict is never
auto-resolved by picking one version, and no file is written. -/
theorem version_conflict_fatal (d : Descriptor) (fs : FS) (env : Env)
    (ds₁ ds₂ ds₃ : List DepDecl) (d₁ d₂ : DepDecl)
    (hdeps : d.dependencies = ds₁ ++ d₁ :: (ds₂ ++ d₂ :: ds₃))
    (hname : ¬ d.repository_name = "")
    (hga : d₁.ga = d₂.ga) (hsc : d₁.scope = d₂.scope)
    (hv : d₁.version ≠ d₂.version) :
    resolveDeps d.dependencies = .error .versionConflict ∧
    generate d fs env = (fs, .error .versionConflict) := by
  have hkey : depKey d₁ = depKey d₂ := by simp [depKey, hga, hsc]
  have hres : resolveDeps d.dependencies = .error .versionConflict := by
    rw [hdeps]
    unfold resolveDeps
    have hsplit : ds₁ ++ d₁ :: (ds₂ ++ d₂ :: ds₃) =
        (ds₁ ++ [d₁]) ++ (ds₂ ++ d₂ :: ds₃) := by simp
    rw [hsplit, resolveDepsAux_append]
    cases h₁ : resolveDepsAux [] (ds₁ ++ [d₁]) with
    | error e =>
      show Except.error e = Except.error GenError.versionConflict
      rw [resolveDepsAux_error_eq h₁]
    | ok acc =>
      have hnd : (acc.map depKey).Nodup := resolveDepsAux_nodup h₁ (by simp)
      rw [resolveDepsAux_append] at h₁
      cases h₀ : resolveDepsAux [] ds₁ with
      | error e₀ =>
        rw [h₀] at h₁
        exact absurd (h₁ : Except.error e₀ = .ok acc) (by simp)
      | ok acc₀ =>
        rw [h₀] at h₁
        replace h₁ : resolveDepsAux acc₀ [d₁] = Except.ok acc := h₁
        rw [resolveDepsAux_cons] at h₁
        cases ha : addDep acc₀ d₁ with
        | error e₀ =>
          rw [ha] at h₁
          exact absurd (h₁ : Except.error e₀ = .ok acc) (by simp)
        | ok acc₁ =>
          rw [ha] at h₁
          have hacc : acc₁ = acc := by
            have h₂ : Except.ok (ε := GenError) acc₁ = Except.ok acc := h₁
            injection h₂
          rcases addDep_ok_key_mem ha with ⟨e, hemem, hek, hever⟩
          show resolveDepsAux acc (ds₂ ++ d₂ :: ds₃) =
            Except.error GenError.versionConflict
          exact resolveDepsAux_conflict ds₂ ds₃ d₂ acc hnd e (hacc ▸ hemem)
            (hek.trans hkey) (by rw [hever]; exact hv)
  refine ⟨hres, ?_⟩
  unfold generate
  rw [if_neg hname, hres]

/-- Witness for `version_conflict_fatal` at a concrete descriptor requesting
two versions of the same coordinate. -/
theorem version_conflict_fatal_witness :
    conflictDescriptor.dependencies =
      [] ++ use "org.example:lib:1.0" :: ([] ++ use "org.example:lib:2.0" :: []) ∧
    ¬ conflictDescriptor.repository_name = "" ∧
    (use "org.example:lib:1.0").ga = (use "org.example:lib:2.0").ga ∧
    (use "org.example:lib:1.0").scope = (use "org.example:lib:2.0").scope ∧
    (use "org.example:lib:1.0").version ≠ (use "org.example:lib:2.0").version ∧
    (resolveDeps conflictDescriptor.dependencies = .error .versionConflict ∧
     generate conflictDescriptor [] ⟨0, 0⟩ = ([], .error .versionConflict)) :=
  ⟨rfl, by decide, rfl, rfl, by decide,
   version_conflict_fatal conflictDescriptor [] ⟨0, 0⟩ [] [] []
     (use "org.example:lib:1.0") (use "org.example:lib:2.0") rfl (by decide)
     rfl rfl (by decide)⟩

/-- C2: generation is idempotent — after a successful run, a second run (under
any ambient environment) performs no writes: every artifact's on-disk content
is byte-identical to the rendered content, every reconciliation skips, and the
filesystem after the second run equals the state after the first. -/
theorem generation_idempotent (d : Descriptor) (fs fs₁ : FS) (env env₂ : Env)
    (rs : List RecResult)
    (h : generate d fs env = (fs₁, .ok rs)) :
    generate d fs₁ env₂ = (fs₁, .ok [.skipped, .skipped, .skipped]) := by
  unfold generate at h ⊢
  by_cases hname : d.repository_name = ""
  · rw [if_pos hname] at h
    simp at h
  · rw [if_neg hname] at h ⊢
    cases hdeps : resolveDeps d.dependencies with
    | error e => rw [hdeps] at h; simp at h
    | ok deps =>
      rw [hdeps] at h
      cases hjl : buildCatalog d.javadoc_links with
      | error e => rw [hjl] at h; simp at h
      | ok jl =>
        rw [hjl] at h
        cases hdl : buildCatalog d.documentation_links with
        | error e => rw [hdl] at h; simp at h
        | ok dl =>
          rw [hdl] at h
          replace h :
              (if RecResult.conflict ∈
                  (reconcileAll (render d deps jl dl env) fs).2 then
                ((reconcileAll (render d deps jl dl env) fs).1,
                 Outcome.error .mergeConflict)
              else
                ((reconcileAll (render d deps jl dl env) fs).1,
                 Outcome.ok (reconcileAll (render d deps jl dl env) fs).2)) =
              (fs₁, .ok rs) := h
          by_cases hc : RecResult.conflict ∈
              (reconcileAll (render d deps jl dl env) fs).2
          · rw [if_pos hc] at h; simp at h
          · rw [if_neg hc] at h
            have hfs : (reconcileAll (render d deps jl dl env) fs).1 = fs₁ :=
              congrArg Prod.fst h
            have hnd : ((render d deps jl dl env).map (fun a => a.path)).Nodup := by
              simp [render, manifestPath, javadocIndexPath, docIndexPath]
            have hpost := reconcileAll_post (render d deps jl dl env) fs hnd hc
            have hread : ∀ a ∈ render d deps jl dl env,
                fs₁.read a.path = some a.content := by
              intro a ha
              rw [← hfs]
              exact hpost a ha
            have harts : render d deps jl dl env₂ = render d deps jl dl env := rfl
            show (let out := reconcileAll (render d deps jl dl env₂) fs₁
              if RecResult.conflict ∈ out.2 then (out.1, Outcome.error .mergeConflict)
              else (out.1, Outcome.ok out.2)) =
              (fs₁, .ok [.skipped, .skipped, .skipped])
            rw [harts, reconcileAll_skip (render d deps jl dl env) fs₁ hread]
            simp [render]

/-- Witness for `generation_idempotent`: the spec §8 scenario descriptor run
on an empty filesystem, then rerun on the resulting filesystem. -/
theorem generation_idempotent_witness :
    generate scenarioDescriptor [] ⟨0, 0⟩ =
      (scenarioFS, .ok [.wrote, .wrote, .wrote]) ∧
    generate scenarioDescriptor scenarioFS ⟨1, 1⟩ =
      (scenarioFS, .ok [.skipped, .skipped, .skipped]) :=
  ⟨by rfl,
   generation_idempotent scenarioDescriptor [] scenarioFS ⟨0, 0⟩ ⟨1, 1⟩
     [.wrote, .wrote, .wrote] (by rfl)⟩

end Hookless
